import Mathlib

/-!
# Verification of `streamlit-copilot-studio`

A shallow embedding of the two source files of the repository
(`copilot_client.py` and `app.py`) together with proofs about the
embedded definitions.

* `clean_citations`, `format_references_html` and the
  `CopilotStudioClient` methods (`start_conversation`, `send_message`)
  are embedded from `copilot_client.py`.
* The per-turn consumer fold `process_response` is embedded from
  `app.py` (`stepEvent` / `processEvents`).

Python strings are modelled as Lean `String` (or `List Char` where the
algorithms scan character by character), Python dicts carrying string
keys as insertion-ordered association lists, Python `None`-able values
as `Option`.  Python truthiness of a possibly absent string is
`optTruthy`.
-/

/-- Python truthiness of an optional string: `None` and `""` are falsy. -/
def optTruthy : Option String → Bool
  | none => false
  | some s => !(s == "")

/-- Python `a or b or ... or ''` over possibly-absent strings:
the first truthy value, defaulting to the empty string. -/
def firstTruthy : List (Option String) → String
  | [] => ""
  | o :: rest => if optTruthy o then o.getD "" else firstTruthy rest

/-- First value bound to key `k` in an insertion-ordered association list
(Python `d.get(k)` / `d[k]`; keys are unique by construction). -/
def lookupDict {α : Type} (d : List (String × α)) (k : String) : Option α :=
  match d with
  | [] => none
  | (k₀, v) :: rest => if k₀ = k then some v else lookupDict rest k

/-- Python `d[k] = v` on an insertion-ordered association list: replace the
value in place if the key is present, else append the pair at the end. -/
def setKey {α : Type} (d : List (String × α)) (k : String) (v : α) : List (String × α) :=
  match d with
  | [] => [(k, v)]
  | (k₀, v₀) :: rest => if k₀ = k then (k, v) :: rest else (k₀, v₀) :: setKey rest k v

/-- Python `d.update(m)`: fold `setKey` over the incoming pairs in order. -/
def dictUpdate {α : Type} (d m : List (String × α)) : List (String × α) :=
  m.foldl (fun acc p => setKey acc p.1 p.2) d

/-! ## Citation markers (`copilot_client.clean_citations`)

The Python function rewrites marker spans matched by the regex
`cite(.+?)` (non-greedy).  The scanner below implements
exactly that leftmost-match, shortest-identifier semantics on the
character list of the text: at each position it tries to match the
six-character literal prefix, then reads the shortest non-empty run of
characters (none of which may be a newline, since `.` does not match
newlines) up to a closing mark.  On failure it emits the current
character unchanged and retries at the next position, exactly as the
regex engine does. -/

/-- The opening marker code point ``. -/
def openMark : Char := Char.ofNat 0xE200

/-- The closing marker code point ``. -/
def closeMark : Char := Char.ofNat 0xE201

/-- The separator code point ``. -/
def sepMark : Char := Char.ofNat 0xE202

/-- The literal pattern head `cite`. -/
def citeOpen : List Char := [openMark, 'c', 'i', 't', 'e', sepMark]

/-- `startsWithPat pat l` holds when `pat` is an initial segment of `l`. -/
def startsWithPat : List Char → List Char → Bool
  | [], _ => true
  | _ :: _, [] => false
  | p :: ps, c :: cs => p == c && startsWithPat ps cs

/-- Scan for the first closing mark: returns the characters before it
and the remainder after it.  Fails if a newline is reached first or the
list ends (the regex `.` does not match a newline, and the close must
be found).  The one-character minimum of the lazy group `(.+?)` is
enforced by the caller (`scanGo`), which consumes the first identifier
character before calling this on the rest. -/
def findClose : List Char → Option (List Char × List Char)
  | [] => none
  | c :: rest =>
    if c = closeMark then some ([], rest)
    else if c = '\n' then none
    else
      match findClose rest with
      | some (id, rem) => some (c :: id, rem)
      | none => none

/-- One piece of the scanned text: an unmatched character or one
citation marker span carrying its identifier. -/
inductive CiteItem where
  | plain (c : Char)
  | cite (id : String)
deriving DecidableEq, Repr

/-- The scanner.  The `skip` argument counts characters of an already
recognised marker span that remain to be consumed, which keeps the
recursion structural in the character list.  With `skip = 0`, at each
position: if the literal head matches, the lazy group `(.+?)` must
first consume one character `d` (any character but a newline — so `d`
may itself be the closing mark), and only then is the first closing
mark searched for (`findClose`); on a full match, emit the citation
and skip the rest of the span (`6 + |id| + 1` characters in total, one
of which is consumed here); otherwise emit the character unchanged and
retry at the next position, as the regex engine does. -/
def scanGo : Nat → List Char → List CiteItem
  | _ + 1, [] => []
  | k + 1, _ :: rest => scanGo k rest
  | 0, [] => []
  | 0, c :: rest =>
    if startsWithPat citeOpen (c :: rest) then
      match rest.drop 5 with
      | [] => CiteItem.plain c :: scanGo 0 rest
      | d :: rest₂ =>
        if d = '\n' then CiteItem.plain c :: scanGo 0 rest
        else
          match findClose rest₂ with
          | some (idTail, _) =>
            CiteItem.cite (String.mk (d :: idTail)) :: scanGo ((d :: idTail).length + 6) rest
          | none => CiteItem.plain c :: scanGo 0 rest
    else CiteItem.plain c :: scanGo 0 rest

/-- Scan a text into plain characters and citation-marker spans,
following `re.sub(r'cite(.+?)', ..., text)`. -/
def scanCite (cs : List Char) : List CiteItem := scanGo 0 cs

/-- A value of the `citation_metadata` dict passed to `clean_citations`:
a Python dict that may lack the `url` and/or `title` keys. -/
structure CiteMeta where
  url : Option String
  title : Option String
deriving DecidableEq, Repr

/-- A value of the running `citations` registry inside `clean_citations`. -/
structure CiteEntry where
  num : Nat
  url : String
  title : String
deriving DecidableEq, Repr

/-- A value of the returned `citations_by_num` mapping. -/
structure NumEntry where
  id : String
  url : String
  title : String
deriving DecidableEq, Repr

/-- The replacement text produced for one marker occurrence
(`replace_citation`, rendering part): a clickable superscript when
`use_html` is set and a url is known, else a plain bracketed number. -/
def renderCite (useHtml : Bool) (e : CiteEntry) : String :=
  if useHtml ∧ e.url ≠ "" then
    "<a href=\"" ++ e.url ++
      "\" target=\"_blank\" style=\"text-decoration:none;color:#0066cc;\"><sup>[" ++
      toString e.num ++ "]</sup></a>"
  else "[" ++ toString e.num ++ "]"

/-- `replace_citation` from `clean_citations`: threads the registry and
counter; an unseen identifier gets the next number and seeds `url` and
`title` from the metadata dict, with defaults `''` and `Source {num}`. -/
def replaceCitation (useHtml : Bool) (md : List (String × CiteMeta))
    (st : List (String × CiteEntry) × Nat) (citationId : String) :
    (List (String × CiteEntry) × Nat) × String :=
  let (citations, counter) := st
  match lookupDict citations citationId with
  | some e => ((citations, counter), renderCite useHtml e)
  | none =>
    let num := counter + 1
    let meta := (lookupDict md citationId).getD ⟨none, none⟩
    let e : CiteEntry :=
      ⟨num, meta.url.getD "", meta.title.getD ("Source " ++ toString num)⟩
    ((citations ++ [(citationId, e)], num), renderCite useHtml e)

/-- One step of the substitution pass: unmatched characters pass through,
marker spans are replaced via `replaceCitation`. -/
def cleanStep (useHtml : Bool) (md : List (String × CiteMeta))
    (acc : (List (String × CiteEntry) × Nat) × String) (item : CiteItem) :
    (List (String × CiteEntry) × Nat) × String :=
  match item with
  | .plain c => (acc.1, acc.2 ++ String.mk [c])
  | .cite citationId =>
    let (st, repl) := replaceCitation useHtml md acc.1 citationId
    (st, acc.2 ++ repl)

/-- `clean_citations(text, use_html, citation_metadata)` from
`copilot_client.py`: returns the rewritten text and the mapping from
assigned numbers to citation records, in assignment order.  Empty
(falsy) input is returned unchanged with an empty map. -/
def clean_citations (text : String) (useHtml : Bool)
    (md : List (String × CiteMeta)) : String × List (Nat × NumEntry) :=
  if text = "" then (text, [])
  else
    let res := (scanCite text.data).foldl (cleanStep useHtml md) (([], 0), "")
    (res.2, res.1.1.map (fun p => (p.2.num, ⟨p.1, p.2.url, p.2.title⟩)))

example : scanCite "ab".data = [CiteItem.plain 'a', CiteItem.plain 'b'] := by decide

example :
    scanCite (String.mk [openMark, 'c', 'i', 't', 'e', sepMark, 'x', closeMark, '!']).data
      = [CiteItem.cite "x", CiteItem.plain '!'] := by decide

-- `(.+?)` needs at least one character: a close mark directly after the
-- separator is not a match and the span passes through unchanged.
example :
    scanCite [openMark, 'c', 'i', 't', 'e', sepMark, closeMark]
      = [CiteItem.plain openMark, CiteItem.plain 'c', CiteItem.plain 'i', CiteItem.plain 't',
         CiteItem.plain 'e', CiteItem.plain sepMark, CiteItem.plain closeMark] := by decide

-- ... but the lazy group may consume a close mark as its first
-- character, so two close marks match with identifier ``.
example :
    scanCite [openMark, 'c', 'i', 't', 'e', sepMark, closeMark, closeMark]
      = [CiteItem.cite (String.mk [closeMark])] := by decide

/-! ## Specification-side characterization of the numbering

The claims describe the citation numbering in terms of the sequence of
identifiers appearing as markers and the list of distinct identifiers
in order of first appearance.  The definitions below express that
vocabulary; the theorems relate them to `clean_citations`. -/

/-- The identifiers of the citation markers of a scanned text, in order. -/
def citeIds (items : List CiteItem) : List String :=
  items.filterMap (fun it => match it with | .cite id => some id | .plain _ => none)

/-- Distinct identifiers in order of first appearance, appended to an
already-seen list. -/
def firstDistinct (seen : List String) : List String → List String
  | [] => seen
  | id :: ids => firstDistinct (if id ∈ seen then seen else seen ++ [id]) ids

/-- Position of the first occurrence of `x` in `l` (0-based). -/
def posOf (l : List String) (x : String) : Nat :=
  match l with
  | [] => 0
  | y :: rest => if y = x then 0 else posOf rest x + 1

/-- The citation record `clean_citations` builds for identifier `id`
when it assigns it the number `num`: fields seeded from the metadata
dict with defaults `''` and `Source {num}`. -/
def entryOf (md : List (String × CiteMeta)) (id : String) (num : Nat) : CiteEntry :=
  let meta := (lookupDict md id).getD ⟨none, none⟩
  ⟨num, meta.url.getD "", meta.title.getD ("Source " ++ toString num)⟩

/-- The registry holding the identifiers of `D` numbered `n+1, n+2, …`
in order. -/
def regOfAux (md : List (String × CiteMeta)) : Nat → List String → List (String × CiteEntry)
  | _, [] => []
  | n, id :: ids => (id, entryOf md id (n + 1)) :: regOfAux md (n + 1) ids

/-- Rendering of one scanned item when the distinct-identifier list is
`D`: a marker for `id` becomes the replacement for the entry numbered
by the position of `id` in `D`. -/
def renderWith (useHtml : Bool) (md : List (String × CiteMeta)) (D : List String) :
    CiteItem → String
  | .plain c => String.mk [c]
  | .cite id => renderCite useHtml (entryOf md id (posOf D id + 1))

/-- Concatenation of a list of strings. -/
def strJoin : List String → String
  | [] => ""
  | s :: rest => s ++ strJoin rest

lemma firstDistinct_extend (ids : List String) :
    ∀ seen : List String, ∃ t, firstDistinct seen ids = seen ++ t := by
  induction ids with
  | nil => intro seen; exact ⟨[], by simp [firstDistinct]⟩
  | cons id ids ih =>
    intro seen
    by_cases h : id ∈ seen
    · obtain ⟨t, ht⟩ := ih seen
      exact ⟨t, by simp [firstDistinct, h, ht]⟩
    · obtain ⟨t, ht⟩ := ih (seen ++ [id])
      refine ⟨[id] ++ t, ?_⟩
      simp only [firstDistinct, if_neg h, ht, List.append_assoc]

lemma posOf_append_left (x : String) (t : List String) :
    ∀ D : List String, x ∈ D → posOf (D ++ t) x = posOf D x := by
  intro D
  induction D with
  | nil => intro hx; cases hx
  | cons y rest ih =>
    intro hx
    by_cases h : y = x
    · simp [posOf, h]
    · have hx' : x ∈ rest := by
        rcases List.mem_cons.mp hx with h1 | h1
        · exact absurd h1.symm h
        · exact h1
      simp [posOf, h, ih hx']

lemma posOf_append_self (x : String) :
    ∀ D : List String, x ∉ D → posOf (D ++ [x]) x = D.length := by
  intro D
  induction D with
  | nil => intro _; simp [posOf]
  | cons y rest ih =>
    intro hx
    have h1 : ¬ y = x := by
      intro he
      exact hx (by rw [he]; exact List.mem_cons_self x rest)
    have h2 : x ∉ rest := fun hr => hx (List.mem_cons_of_mem y hr)
    simp [posOf, h1, ih h2]

lemma firstDistinct_nodup :
    ∀ (ids seen : List String), seen.Nodup → (firstDistinct seen ids).Nodup := by
  intro ids
  induction ids with
  | nil => intro seen h; simpa [firstDistinct] using h
  | cons id ids ih =>
    intro seen h
    by_cases hm : id ∈ seen
    · simpa [firstDistinct, hm] using ih seen h
    · have hap : (seen ++ [id]).Nodup := by
        rw [List.nodup_append]
        refine ⟨h, List.nodup_singleton id, ?_⟩
        intro a ha hb
        rw [List.mem_singleton] at hb
        exact hm (hb ▸ ha)
      simpa [firstDistinct, hm] using ih (seen ++ [id]) hap

lemma mem_firstDistinct (x : String) :
    ∀ (ids seen : List String), x ∈ firstDistinct seen ids ↔ x ∈ seen ∨ x ∈ ids := by
  intro ids
  induction ids with
  | nil => intro seen; simp [firstDistinct]
  | cons id ids ih =>
    intro seen
    by_cases hm : id ∈ seen
    · rw [firstDistinct, if_pos hm, ih, List.mem_cons]
      constructor
      · rintro (h | h)
        · exact Or.inl h
        · exact Or.inr (Or.inr h)
      · rintro (h | h | h)
        · exact Or.inl h
        · subst h; exact Or.inl hm
        · exact Or.inr h
    · rw [firstDistinct, if_neg hm, ih, List.mem_append, List.mem_singleton, List.mem_cons]
      tauto

lemma regOfAux_append (md : List (String × CiteMeta)) :
    ∀ (D : List String) (n : Nat) (id : String),
      regOfAux md n (D ++ [id])
        = regOfAux md n D ++ [(id, entryOf md id (n + D.length + 1))] := by
  intro D
  induction D with
  | nil => intro n id; simp [regOfAux]
  | cons y rest ih =>
    intro n id
    have harith : n + 1 + rest.length + 1 = n + (rest.length + 1) + 1 := by omega
    simp only [List.cons_append, regOfAux, List.length_cons]
    rw [show rest.append [id] = rest ++ [id] from rfl, ih (n + 1) id, harith]

lemma regOfAux_map_num (md : List (String × CiteMeta)) :
    ∀ (D : List String) (n : Nat),
      (regOfAux md n D).map (fun p => p.2.num) = List.range' (n + 1) D.length := by
  intro D
  induction D with
  | nil => intro n; simp [regOfAux]
  | cons y rest ih =>
    intro n
    simp [regOfAux, entryOf, ih (n + 1), List.range']

lemma regOfAux_map_fst (md : List (String × CiteMeta)) :
    ∀ (D : List String) (n : Nat), (regOfAux md n D).map Prod.fst = D := by
  intro D
  induction D with
  | nil => intro n; simp [regOfAux]
  | cons y rest ih => intro n; simp [regOfAux, ih (n + 1)]

lemma lookupDict_regOfAux_mem (md : List (String × CiteMeta)) (x : String) :
    ∀ (D : List String) (n : Nat), x ∈ D →
      lookupDict (regOfAux md n D) x = some (entryOf md x (n + posOf D x + 1)) := by
  intro D
  induction D with
  | nil => intro n hx; cases hx
  | cons y rest ih =>
    intro n hx
    by_cases h : y = x
    · subst h; simp [regOfAux, lookupDict, posOf]
    · have hx' : x ∈ rest := by
        rcases List.mem_cons.mp hx with h1 | h1
        · exact absurd h1.symm h
        · exact h1
      have harith : n + 1 + posOf rest x + 1 = n + (posOf rest x + 1) + 1 := by omega
      simp only [regOfAux, lookupDict, if_neg h, ih (n + 1) hx', harith, posOf]

lemma lookupDict_regOfAux_not_mem (md : List (String × CiteMeta)) (x : String) :
    ∀ (D : List String) (n : Nat), x ∉ D →
      lookupDict (regOfAux md n D) x = none := by
  intro D
  induction D with
  | nil => intro n _; rfl
  | cons y rest ih =>
    intro n hx
    have h1 : ¬ y = x := by
      intro he
      exact hx (by rw [he]; exact List.mem_cons_self x rest)
    have h2 : x ∉ rest := fun hr => hx (List.mem_cons_of_mem y hr)
    simp [regOfAux, lookupDict, h1, ih (n + 1) h2]

lemma mem_regOfAux (md : List (String × CiteMeta)) (k : String) (e : CiteEntry) :
    ∀ (D : List String) (n : Nat), D.Nodup → (k, e) ∈ regOfAux md n D →
      k ∈ D ∧ e = entryOf md k (n + posOf D k + 1) := by
  intro D
  induction D with
  | nil => intro n _ hmem; cases hmem
  | cons y rest ih =>
    intro n hnd hmem
    rcases List.mem_cons.mp hmem with h1 | h1
    · injection h1 with hk he
      subst hk
      refine ⟨List.mem_cons_self k rest, ?_⟩
      simp [posOf, he]
    · have hnd' := (List.nodup_cons.mp hnd).2
      have hyr := (List.nodup_cons.mp hnd).1
      obtain ⟨hk, he⟩ := ih (n + 1) hnd' h1
      have hyk : ¬ y = k := fun hcontra => hyr (hcontra ▸ hk)
      refine ⟨List.mem_cons_of_mem y hk, ?_⟩
      have harith : n + 1 + posOf rest k + 1 = n + (posOf rest k + 1) + 1 := by omega
      simp [posOf, hyk, he, harith]

/-- Workhorse: the substitution fold, started from the registry of an
already-seen distinct-identifier list `D`, produces the registry of the
final distinct-identifier list together with the rendering of every
item at its final assigned number. -/
lemma cleanFold_spec (u : Bool) (md : List (String × CiteMeta)) :
    ∀ (items : List CiteItem) (D : List String) (out : String),
      items.foldl (cleanStep u md) ((regOfAux md 0 D, D.length), out)
        = ((regOfAux md 0 (firstDistinct D (citeIds items)),
            (firstDistinct D (citeIds items)).length),
           out ++ strJoin (items.map (renderWith u md (firstDistinct D (citeIds items))))) := by
  intro items
  induction items with
  | nil =>
    intro D out
    simp [citeIds, firstDistinct, strJoin, String.append_empty]
  | cons item items ih =>
    intro D out
    cases item with
    | plain c =>
      have hids : citeIds (CiteItem.plain c :: items) = citeIds items := by simp [citeIds]
      rw [List.foldl_cons]
      have hstep : cleanStep u md ((regOfAux md 0 D, D.length), out) (CiteItem.plain c)
          = ((regOfAux md 0 D, D.length), out ++ String.mk [c]) := rfl
      rw [hstep, ih D (out ++ String.mk [c]), hids]
      simp [renderWith, strJoin, String.append_assoc]
    | cite id =>
      have hids : citeIds (CiteItem.cite id :: items) = id :: citeIds items := by simp [citeIds]
      rw [List.foldl_cons, hids]
      by_cases hm : id ∈ D
      · have hfd : firstDistinct D (id :: citeIds items) = firstDistinct D (citeIds items) := by
          rw [firstDistinct, if_pos hm]
        have hlook := lookupDict_regOfAux_mem md id D 0 hm
        have hstep : cleanStep u md ((regOfAux md 0 D, D.length), out) (CiteItem.cite id)
            = ((regOfAux md 0 D, D.length),
               out ++ renderCite u (entryOf md id (posOf D id + 1))) := by
          simp [cleanStep, replaceCitation, hlook]
        rw [hstep, ih D _, hfd]
        obtain ⟨t, ht⟩ := firstDistinct_extend (citeIds items) D
        have hpos : posOf (firstDistinct D (citeIds items)) id = posOf D id := by
          rw [ht]; exact posOf_append_left id t D hm
        simp [strJoin, renderWith, hpos, String.append_assoc]
      · have hfd : firstDistinct D (id :: citeIds items)
            = firstDistinct (D ++ [id]) (citeIds items) := by
          rw [firstDistinct, if_neg hm]
        have hlook := lookupDict_regOfAux_not_mem md id D 0 hm
        have hreg : regOfAux md 0 D ++ [(id, entryOf md id (D.length + 1))]
            = regOfAux md 0 (D ++ [id]) := by
          have := (regOfAux_append md D 0 id).symm
          simpa using this
        have hstep : cleanStep u md ((regOfAux md 0 D, D.length), out) (CiteItem.cite id)
            = ((regOfAux md 0 (D ++ [id]), (D ++ [id]).length),
               out ++ renderCite u (entryOf md id (D.length + 1))) := by
          simp only [cleanStep, replaceCitation, hlook]
          rw [← hreg]
          simp [entryOf, List.length_append]
        rw [hstep, ih (D ++ [id]) _, hfd]
        obtain ⟨t, ht⟩ := firstDistinct_extend (citeIds items) (D ++ [id])
        have hpos : posOf (firstDistinct (D ++ [id]) (citeIds items)) id = D.length := by
          rw [ht, posOf_append_left id t (D ++ [id]) (by simp), posOf_append_self id D hm]
        simp [strJoin, renderWith, hpos, String.append_assoc]

/-- Closed form of `clean_citations` on non-empty text, in terms of the
scanner, the first-appearance distinct-identifier list, and the
registry it induces. -/
lemma clean_citations_eq (text : String) (u : Bool) (md : List (String × CiteMeta))
    (h : text ≠ "") :
    clean_citations text u md
      = (strJoin ((scanCite text.data).map
            (renderWith u md (firstDistinct [] (citeIds (scanCite text.data))))),
         (regOfAux md 0 (firstDistinct [] (citeIds (scanCite text.data)))).map
           (fun p => (p.2.num, ⟨p.1, p.2.url, p.2.title⟩))) := by
  unfold clean_citations
  rw [if_neg h]
  have hmain := cleanFold_spec u md (scanCite text.data) [] ""
  simp only [regOfAux, List.length_nil] at hmain
  simp only [hmain, String.empty_append]

lemma mem_regOfAux_of_mem (md : List (String × CiteMeta)) (x : String) :
    ∀ (D : List String) (n : Nat), x ∈ D →
      (x, entryOf md x (n + posOf D x + 1)) ∈ regOfAux md n D := by
  intro D
  induction D with
  | nil => intro n hx; cases hx
  | cons y rest ih =>
    intro n hx
    by_cases h : y = x
    · subst h
      simp [regOfAux, posOf]
    · have hx' : x ∈ rest := by
        rcases List.mem_cons.mp hx with h1 | h1
        · exact absurd h1.symm h
        · exact h1
      have harith : n + (posOf rest x + 1) + 1 = n + 1 + posOf rest x + 1 := by omega
      rw [show posOf (y :: rest) x = posOf rest x + 1 by simp [posOf, h], harith]
      exact List.mem_cons_of_mem _ (ih (n + 1) hx')

lemma countP_map_key {α β : Type} [BEq β] (g : α → β) (l : List α) (b : β) :
    l.countP (fun x => g x == b) = (l.map g).count b := by
  rw [List.count_eq_countP, List.countP_map]
  rfl

/-- Claim C2: for every text, `clean_citations` assigns exactly one
numbered entry per identifier occurring as a citation marker, the
assigned numbers are dense (`1..N`), unique and listed in order of
first appearance of each distinct identifier, every entry's number is
the position of its identifier's first occurrence among distinct
identifiers, and every marker occurrence in the rewritten text is
rendered with the number assigned to its identifier. -/
theorem C2_clean_citations_numbering (text : String) (useHtml : Bool)
    (md : List (String × CiteMeta)) :
    ((clean_citations text useHtml md).2.map Prod.fst
        = List.range' 1 (firstDistinct [] (citeIds (scanCite text.data))).length)
    ∧ ((clean_citations text useHtml md).2.map (fun p => p.2.id)
        = firstDistinct [] (citeIds (scanCite text.data)))
    ∧ ((clean_citations text useHtml md).2.map (fun p => p.2.id)).Nodup
    ∧ (∀ id : String,
        (clean_citations text useHtml md).2.countP (fun p => p.2.id == id)
          = if id ∈ citeIds (scanCite text.data) then 1 else 0)
    ∧ (∀ id : String, ∀ p ∈ (clean_citations text useHtml md).2, p.2.id = id →
        p.1 = posOf (firstDistinct [] (citeIds (scanCite text.data))) id + 1)
    ∧ ((clean_citations text useHtml md).1
        = strJoin ((scanCite text.data).map
            (renderWith useHtml md (firstDistinct [] (citeIds (scanCite text.data)))))) := by
  by_cases htext : text = ""
  · subst htext
    refine ⟨?_, ?_, ?_, ?_, ?_, ?_⟩ <;>
      simp [clean_citations, scanCite, scanGo, citeIds, firstDistinct, strJoin]
  · have hnd : (firstDistinct [] (citeIds (scanCite text.data))).Nodup :=
      firstDistinct_nodup (citeIds (scanCite text.data)) [] List.nodup_nil
    rw [clean_citations_eq text useHtml md htext]
    refine ⟨?_, ?_, ?_, ?_, ?_, ?_⟩
    · rw [List.map_map]
      simpa using regOfAux_map_num md (firstDistinct [] (citeIds (scanCite text.data))) 0
    · rw [List.map_map]
      simpa using regOfAux_map_fst md (firstDistinct [] (citeIds (scanCite text.data))) 0
    · rw [List.map_map]
      show ((regOfAux md 0 (firstDistinct [] (citeIds (scanCite text.data)))).map Prod.fst).Nodup
      rw [regOfAux_map_fst]
      exact hnd
    · intro id
      rw [countP_map_key (fun p : Nat × NumEntry => p.2.id), List.map_map]
      have heq : ((regOfAux md 0 (firstDistinct [] (citeIds (scanCite text.data)))).map
            ((fun p : Nat × NumEntry => p.2.id)
              ∘ fun p : String × CiteEntry => ((p.2.num, ⟨p.1, p.2.url, p.2.title⟩) : Nat × NumEntry)))
          = firstDistinct [] (citeIds (scanCite text.data)) :=
        regOfAux_map_fst md (firstDistinct [] (citeIds (scanCite text.data))) 0
      rw [heq]
      by_cases hm : id ∈ citeIds (scanCite text.data)
      · have hmD : id ∈ firstDistinct [] (citeIds (scanCite text.data)) :=
          (mem_firstDistinct id (citeIds (scanCite text.data)) []).mpr (Or.inr hm)
        rw [if_pos hm]
        exact List.count_eq_one_of_mem hnd hmD
      · have hmD : id ∉ firstDistinct [] (citeIds (scanCite text.data)) := by
          intro hcontra
          rcases (mem_firstDistinct id (citeIds (scanCite text.data)) []).mp hcontra with h | h
          · cases h
          · exact hm h
        rw [if_neg hm]
        exact List.count_eq_zero_of_not_mem hmD
    · intro id p hp hpid
      rcases List.mem_map.mp hp with ⟨r, hr, hfr⟩
      rcases r with ⟨k, e⟩
      obtain ⟨hk, he⟩ := mem_regOfAux md k e (firstDistinct [] (citeIds (scanCite text.data))) 0 hnd hr
      have hid : k = id := by
        rw [← hpid, ← hfr]
      subst hid
      rw [← hfr]
      simp [he, entryOf]
    · rfl

/-- Claim C9: in `clean_citations`, the synthetic defaults apply only
when the identifier is absent as a key of `citation_metadata`: an entry
whose `title` field is the empty string yields an empty assigned title
(not the `Source {num}` placeholder), and an explicitly empty `url`
stays empty; the placeholder is used for identifiers with no metadata
entry (and, by `entryOf`, for entries lacking the `title` key). -/
theorem C9_explicit_empty_metadata (text : String) (useHtml : Bool)
    (md : List (String × CiteMeta)) (id : String)
    (hid : id ∈ citeIds (scanCite text.data)) :
    (∀ m : CiteMeta, lookupDict md id = some m → m.title = some "" →
        ∃ n : Nat, ((n, NumEntry.mk id (m.url.getD "") "") ∈ (clean_citations text useHtml md).2))
    ∧ (lookupDict md id = none →
        ∃ n : Nat, ((n, NumEntry.mk id "" ("Source " ++ toString n))
          ∈ (clean_citations text useHtml md).2)) := by
  have htext : text ≠ "" := by
    intro he
    rw [he] at hid
    simp [scanCite, scanGo, citeIds] at hid
  have hmD : id ∈ firstDistinct [] (citeIds (scanCite text.data)) :=
    (mem_firstDistinct id (citeIds (scanCite text.data)) []).mpr (Or.inr hid)
  have hmem := mem_regOfAux_of_mem md id (firstDistinct [] (citeIds (scanCite text.data))) 0 hmD
  rw [clean_citations_eq text useHtml md htext]
  constructor
  · intro m hlook htitle
    refine ⟨posOf (firstDistinct [] (citeIds (scanCite text.data))) id + 1, ?_⟩
    have himg := List.mem_map_of_mem
      (fun p : String × CiteEntry => ((p.2.num, ⟨p.1, p.2.url, p.2.title⟩) : Nat × NumEntry)) hmem
    simpa [entryOf, hlook, htitle] using himg
  · intro hlook
    refine ⟨posOf (firstDistinct [] (citeIds (scanCite text.data))) id + 1, ?_⟩
    have himg := List.mem_map_of_mem
      (fun p : String × CiteEntry => ((p.2.num, ⟨p.1, p.2.url, p.2.title⟩) : Nat × NumEntry)) hmem
    simpa [entryOf, hlook] using himg

/-- Witness for C2 at a concrete text with markers `a`, `b`, `a`. -/
theorem C2_clean_citations_numbering_witness :
    (1 : Nat) = posOf (firstDistinct [] (citeIds (scanCite (String.mk
        [openMark, 'c', 'i', 't', 'e', sepMark, 'a', closeMark,
         openMark, 'c', 'i', 't', 'e', sepMark, 'b', closeMark,
         openMark, 'c', 'i', 't', 'e', sepMark, 'a', closeMark]).data))) "a" + 1 :=
  (C2_clean_citations_numbering _ false []).2.2.2.2.1 "a"
    (1, NumEntry.mk "a" "" "Source 1") (by decide) (by decide)

/-- Witness for C9: one marker for `a`, metadata with explicitly empty
`url` and `title`; the assigned title is empty, not `Source 1`. -/
theorem C9_explicit_empty_metadata_witness :
    ∃ n : Nat, ((n, NumEntry.mk "a" ((some "").getD "") "")
      ∈ (clean_citations (String.mk [openMark, 'c', 'i', 't', 'e', sepMark, 'a', closeMark])
          false [("a", CiteMeta.mk (some "") (some ""))]).2) :=
  (C9_explicit_empty_metadata _ false _ "a" (by decide)).1
    (CiteMeta.mk (some "") (some "")) (by decide) (by decide)

/-! ## Task-name extraction (`send_message`, thought events)

`send_message` derives a short task label from `value['taskDialogId']`:
`task_id.split(':')[-1]` when a colon is present, else
`task_id.split('.')[-1]` when a dot is present, else the identifier
itself; then `.replace('P:', '').replace('-InvokeServer', '')`. -/

/-- Python `s.split(sep)` for a one-character separator: split on every
occurrence, keeping empty groups; never returns an empty list. -/
def pySplit (sep : Char) : List Char → List (List Char)
  | [] => [[]]
  | c :: rest =>
    match pySplit sep rest with
    | [] => [[c]]
    | g :: gs => if c = sep then [] :: g :: gs else (c :: g) :: gs

/-- Python `groups[-1]` (with `[]` for an empty group list, which
`pySplit` never produces). -/
def lastD : List (List Char) → List Char
  | [] => []
  | [g] => g
  | _ :: g :: gs => lastD (g :: gs)

/-- The `task_name` base chosen by the `if ':' in task_id / elif '.' in
task_id / else` chain. -/
def taskBase (tid : List Char) : List Char :=
  if ':' ∈ tid then lastD (pySplit ':' tid)
  else if '.' ∈ tid then lastD (pySplit '.' tid)
  else tid

/-- Python `s.replace(pat, '')`: remove every occurrence of `pat`,
scanning left to right without overlap.  The `skip` argument counts
characters of a recognised occurrence still to be consumed, keeping the
recursion structural.  An empty pattern removes nothing. -/
def removeAllGo (pat : List Char) : Nat → List Char → List Char
  | _ + 1, [] => []
  | k + 1, _ :: rest => removeAllGo pat k rest
  | 0, [] => []
  | 0, c :: rest =>
    match pat with
    | [] => c :: removeAllGo pat 0 rest
    | _ :: ps =>
      if startsWithPat pat (c :: rest) then removeAllGo pat ps.length rest
      else c :: removeAllGo pat 0 rest

/-- Python `s.replace(pat, '')`. -/
def pyRemoveAll (pat s : List Char) : List Char := removeAllGo pat 0 s

/-- The task-label computation of `send_message` (lines 170-175 of
`copilot_client.py`). -/
def extractTaskName (taskId : String) : String :=
  String.mk (pyRemoveAll "-InvokeServer".data (pyRemoveAll ['P', ':'] (taskBase taskId.data)))

/-- The characters after the last occurrence of `sep` (the whole list
when `sep` does not occur).  This is the claim's description of
`split(sep)[-1]`. -/
def afterLastSep (sep : Char) : List Char → List Char
  | [] => []
  | c :: rest =>
    if sep ∈ rest then afterLastSep sep rest
    else if c = sep then rest
    else c :: rest

/-- The claim's description of the label base: substring after the last
colon if one exists, else after the last dot if one exists, else the
identifier itself. -/
def specTaskBase (tid : List Char) : List Char :=
  if ':' ∈ tid then afterLastSep ':' tid
  else if '.' ∈ tid then afterLastSep '.' tid
  else tid

/-- Drop `pat` from the front when it is an initial segment (the claim's
"strip a literal prefix marker"). -/
def dropPatAtStart (pat s : List Char) : List Char :=
  if startsWithPat pat s then s.drop pat.length else s

/-- Drop `pat` from the back when it is a final segment (the claim's
"strip a literal suffix marker"). -/
def dropPatAtEnd (pat s : List Char) : List Char :=
  (dropPatAtStart pat.reverse s.reverse).reverse

/-- The task label as claim C8 words it: the base substring with the
marker `P:` stripped from the front and `-InvokeServer` stripped from
the back. -/
def specTaskLabel (taskId : String) : String :=
  String.mk (dropPatAtEnd "-InvokeServer".data (dropPatAtStart ['P', ':'] (specTaskBase taskId.data)))

lemma pySplit_cons_eq (sep c : Char) (rest g : List Char) (gs : List (List Char))
    (h : pySplit sep rest = g :: gs) :
    pySplit sep (c :: rest) = if c = sep then [] :: g :: gs else (c :: g) :: gs := by
  rw [pySplit, h]

lemma pySplit_ne_nil (sep : Char) : ∀ l : List Char, pySplit sep l ≠ [] := by
  intro l
  cases l with
  | nil => simp [pySplit]
  | cons c rest =>
    rw [pySplit]
    match h : pySplit sep rest with
    | [] => simp
    | g :: gs =>
      by_cases hc : c = sep <;> simp [hc]

lemma pySplit_not_mem (sep : Char) : ∀ l : List Char, sep ∉ l → pySplit sep l = [l] := by
  intro l
  induction l with
  | nil => intro _; rfl
  | cons c rest ih =>
    intro hmem
    have hc : ¬ c = sep := fun h => hmem (by rw [h]; exact List.mem_cons_self sep rest)
    have hrest : sep ∉ rest := fun h => hmem (List.mem_cons_of_mem c h)
    rw [pySplit_cons_eq sep c rest rest [] (ih hrest), if_neg hc]

lemma pySplit_mem (sep : Char) : ∀ l : List Char, sep ∈ l →
    ∃ g gs, pySplit sep l = g :: gs ∧ gs ≠ [] := by
  intro l
  induction l with
  | nil => intro h; cases h
  | cons c rest ih =>
    intro hmem
    by_cases hc : c = sep
    · match h : pySplit sep rest with
      | [] => exact absurd h (pySplit_ne_nil sep rest)
      | g :: gs =>
        refine ⟨[], g :: gs, ?_, by simp⟩
        rw [pySplit_cons_eq sep c rest g gs h, if_pos hc]
    · have hrest : sep ∈ rest := by
        rcases List.mem_cons.mp hmem with h1 | h1
        · exact absurd h1.symm hc
        · exact h1
      obtain ⟨g, gs, hsp, hne⟩ := ih hrest
      refine ⟨c :: g, gs, ?_, hne⟩
      rw [pySplit_cons_eq sep c rest g gs hsp, if_neg hc]

lemma lastD_pySplit (sep : Char) : ∀ l : List Char, lastD (pySplit sep l) = afterLastSep sep l := by
  intro l
  induction l with
  | nil => rfl
  | cons c rest ih =>
    by_cases hmem : sep ∈ rest
    · obtain ⟨g, gs, hsp, hne⟩ := pySplit_mem sep rest hmem
      obtain ⟨g₁, gs₁, hgs⟩ : ∃ g₁ gs₁, gs = g₁ :: gs₁ := by
        cases gs with
        | nil => exact absurd rfl hne
        | cons g₁ gs₁ => exact ⟨g₁, gs₁, rfl⟩
      subst hgs
      rw [afterLastSep, if_pos hmem, ← ih, hsp,
        pySplit_cons_eq sep c rest g (g₁ :: gs₁) hsp]
      by_cases hc : c = sep
      · rw [if_pos hc]
        rfl
      · rw [if_neg hc]
        rfl
    · have hsp := pySplit_not_mem sep rest hmem
      rw [pySplit_cons_eq sep c rest rest [] hsp, afterLastSep, if_neg hmem]
      by_cases hc : c = sep
      · rw [if_pos hc, if_pos hc]
        rfl
      · rw [if_neg hc, if_neg hc]
        rfl

lemma afterLastSep_not_mem (sep : Char) : ∀ l : List Char, sep ∉ afterLastSep sep l := by
  intro l
  induction l with
  | nil => simp [afterLastSep]
  | cons c rest ih =>
    by_cases hmem : sep ∈ rest
    · rw [afterLastSep, if_pos hmem]
      exact ih
    · rw [afterLastSep, if_neg hmem]
      by_cases hc : c = sep
      · rw [if_pos hc]
        exact hmem
      · rw [if_neg hc]
        intro hcontra
        rcases List.mem_cons.mp hcontra with h1 | h1
        · exact hc h1.symm
        · exact hmem h1

lemma afterLastSep_sub (sep : Char) (x : Char) :
    ∀ l : List Char, x ∈ afterLastSep sep l → x ∈ l := by
  intro l
  induction l with
  | nil => intro h; simp [afterLastSep] at h
  | cons c rest ih =>
    intro hx
    by_cases hmem : sep ∈ rest
    · rw [afterLastSep, if_pos hmem] at hx
      exact List.mem_cons_of_mem c (ih hx)
    · rw [afterLastSep, if_neg hmem] at hx
      by_cases hc : c = sep
      · rw [if_pos hc] at hx
        exact List.mem_cons_of_mem c hx
      · rwa [if_neg hc] at hx

lemma removeAll_pcolon_id : ∀ s : List Char, ':' ∉ s → pyRemoveAll ['P', ':'] s = s := by
  intro s
  induction s with
  | nil => intro _; rfl
  | cons c rest ih =>
    intro hmem
    have hrest : ':' ∉ rest := fun h => hmem (List.mem_cons_of_mem c h)
    have hpat : startsWithPat ['P', ':'] (c :: rest) = false := by
      cases rest with
      | nil => simp [startsWithPat]
      | cons d rest₂ =>
        have hd : ((':' : Char) == d) = false := by
          refine beq_eq_false_iff_ne.mpr ?_
          intro he
          exact hrest (List.mem_cons.mpr (Or.inl he))
        simp [startsWithPat, hd]
    show removeAllGo ['P', ':'] 0 (c :: rest) = c :: rest
    rw [removeAllGo, hpat]
    simp only [Bool.false_eq_true, if_false]
    rw [show removeAllGo ['P', ':'] 0 rest = pyRemoveAll ['P', ':'] rest from rfl, ih hrest]

lemma taskBase_eq_spec (tid : List Char) : taskBase tid = specTaskBase tid := by
  unfold taskBase specTaskBase
  by_cases h1 : ':' ∈ tid
  · rw [if_pos h1, if_pos h1, lastD_pySplit]
  · rw [if_neg h1, if_neg h1]
    by_cases h2 : '.' ∈ tid
    · rw [if_pos h2, if_pos h2, lastD_pySplit]
    · rw [if_neg h2, if_neg h2]

/-- Counterexample to claim C8 as stated: for the task identifier
`a-InvokeServerb` (no colon, no dot), the code removes the occurrence
of `-InvokeServer` in the middle of the identifier, while the claim's
reading (strip a literal suffix marker) leaves it unchanged. -/
theorem C8_task_label_counterexample :
    extractTaskName "a-InvokeServerb" = "ab"
    ∧ specTaskLabel "a-InvokeServerb" = "a-InvokeServerb"
    ∧ extractTaskName "a-InvokeServerb" ≠ specTaskLabel "a-InvokeServerb" := by
  refine ⟨by decide, by decide, by decide⟩

/-- Claim C8, amended: the emitted task label equals the substring
after the last colon if the identifier contains a colon, else after the
last dot if it contains a dot, else the identifier itself, with every
occurrence of `-InvokeServer` removed (left to right) from that result
— not only a suffix occurrence.  Removing occurrences of `P:` is
vacuous because that substring never contains a colon. -/
theorem C8_task_label_amended (taskId : String) :
    extractTaskName taskId
      = String.mk (pyRemoveAll "-InvokeServer".data (specTaskBase taskId.data))
    ∧ ':' ∉ specTaskBase taskId.data := by
  have hnotin : ':' ∉ specTaskBase taskId.data := by
    unfold specTaskBase
    by_cases h1 : ':' ∈ taskId.data
    · rw [if_pos h1]
      exact afterLastSep_not_mem ':' taskId.data
    · rw [if_neg h1]
      by_cases h2 : '.' ∈ taskId.data
      · rw [if_pos h2]
        intro hc
        exact h1 (afterLastSep_sub '.' ':' taskId.data hc)
      · rw [if_neg h2]
        exact h1
  refine ⟨?_, hnotin⟩
  unfold extractTaskName
  rw [taskBase_eq_spec, removeAll_pcolon_id _ hnotin]

/-! ## The response stream (`CopilotStudioClient`)

`send_message` consumes the transport's activity stream and yields
typed events.  An activity is modelled by the fields the code reads;
`Option` models absent (or, where noted, non-dict) values.  The debug
dump to `/tmp/activities_debug.json` is a side effect with no influence
on the yielded events and is not modelled. -/

inductive ActivityType where
  | event
  | typing
  | message
  | endOfConversation
  | other
deriving DecidableEq, Repr

structure ChannelData where
  streamType : Option String
  chunkType : Option String
deriving DecidableEq, Repr

/-- One raw search-result dict inside
`value['observation']['search_result']['search_results']`, with both
key-casing conventions (`Url`/`url`, `Name`/`name`) as separate
optional fields, plus `SourceId`. -/
structure RawSearchRes where
  urlUpper : Option String
  urlLower : Option String
  nameUpper : Option String
  nameLower : Option String
  sourceId : Option String
deriving DecidableEq, Repr

/-- The `value` payload of an event-kind activity when it is a dict
(`none` at the `Activity` level models an absent, falsy or non-dict
value).  The nested `observation → search_result → search_results`
chain collapses to `[]` when any level is absent or not a dict; a
`none` element models a non-dict entry of the list, which is skipped
by the code but still consumes an index of `enumerate`. -/
structure EventValue where
  thought : Option String
  taskDialogId : Option String
  state : Option String
  searchResults : List (Option RawSearchRes)
deriving DecidableEq, Repr

/-- One entity of a message-kind activity after the `vars(ent)` / dict
normalisation; `none` in the entity list models a value that is
neither an object nor a dict and is skipped.  `typeStr` is
`str(ent_dict.get('type', ''))`. -/
structure Entity where
  typeStr : String
  atId : Option String
  idLower : Option String
  urlLower : Option String
  urlUpper : Option String
  uri : Option String
  sameAs : Option String
  nameLower : Option String
  titleLower : Option String
  nameUpper : Option String
deriving DecidableEq, Repr

/-- A transport activity, carrying the fields `send_message` reads.
`channelData` is `none` when `channel_data` is a truthy non-dict (the
`or`-chain in the code otherwise always produces a dict, modelled as
`some`). -/
structure Activity where
  type : ActivityType
  text : Option String
  channelData : Option ChannelData
  value : Option EventValue
  entities : List (Option Entity)
  suggestedActions : Option (List String)
deriving DecidableEq, Repr

structure ThoughtEv where
  text : String
  task : String
  state : String
deriving DecidableEq, Repr

structure SearchEv where
  index : Nat
  url : String
  title : String
  sourceId : String
deriving DecidableEq, Repr

/-- A value of a yielded citation map: the `{url, title}` record built
from an entity (both keys always present, possibly empty). -/
structure CiteInfo where
  url : String
  title : String
deriving DecidableEq, Repr

/-- The typed events `send_message` yields (the spec's `OutputEvent`;
its `EndOfTurn` is the termination of the yielded sequence itself and
has no constructor here). -/
inductive OutputEvent where
  | status (text : String)
  | thought (t : ThoughtEv)
  | searchResult (sr : SearchEv)
  | content (text : String)
  | finalContent (text : String)
  | citations (map : List (String × CiteInfo))
  | suggestion (text : String)
deriving DecidableEq, Repr

/-- Python `sub in s` (substring test on character lists). -/
def containsSub (pat : List Char) : List Char → Bool
  | [] => pat.isEmpty
  | c :: rest => startsWithPat pat (c :: rest) || containsSub pat rest

/-- Python `s.lower()` (ASCII case folding, which covers the patterns
the code searches for). -/
def lowerStr (s : List Char) : List Char := s.map Char.toLower

/-- Events yielded by the `reply.type == ActivityTypes.event` block of
`send_message`: a thought event when `value['thought']` is truthy, then
one search-result event per dict element of the nested results list,
indexed by `enumerate` and resolved through the `or`-chains over the
two key casings. -/
def eventOutputs (a : Activity) : List OutputEvent :=
  match a.value with
  | none => []
  | some v =>
    let thoughtPart :=
      if optTruthy v.thought then
        [OutputEvent.thought
          ⟨v.thought.getD "", extractTaskName (v.taskDialogId.getD ""), v.state.getD ""⟩]
      else []
    let srPart := v.searchResults.enum.filterMap (fun p =>
      match p.2 with
      | some res => some (OutputEvent.searchResult
          ⟨p.1, firstTruthy [res.urlUpper, res.urlLower],
            firstTruthy [res.nameUpper, res.nameLower],
            firstTruthy [res.sourceId]⟩)
      | none => none)
    thoughtPart ++ srPart

/-- Events yielded by the typing-kind branch: a status for an
`informative` stream type with truthy text, else a content delta for a
`delta` chunk type with truthy text, else nothing. -/
def typingOutputs (a : Activity) : List OutputEvent :=
  match a.channelData with
  | none => []
  | some cd =>
    if cd.streamType = some "informative" ∧ optTruthy a.text then
      [OutputEvent.status (a.text.getD "")]
    else if cd.chunkType = some "delta" ∧ optTruthy a.text then
      [OutputEvent.content (a.text.getD "")]
    else []

/-- The `citation_map` dict built from the entities of a message-kind
activity: entities whose declared type mentions `Claim` or (lowercased)
`citation`, keyed by the first truthy of `@id`/`id`, with fallback
field chains for url and title. -/
def buildCitationMap (ents : List (Option Entity)) : List (String × CiteInfo) :=
  ents.foldl (fun cm e =>
    match e with
    | none => cm
    | some ent =>
      if containsSub "Claim".data ent.typeStr.data
          || containsSub "citation".data (lowerStr ent.typeStr.data) then
        let citeId := firstTruthy [ent.atId, ent.idLower]
        if citeId ≠ "" then
          setKey cm citeId
            ⟨firstTruthy [ent.urlLower, ent.urlUpper, ent.uri, ent.sameAs],
             firstTruthy [ent.nameLower, ent.titleLower, ent.nameUpper]⟩
        else cm
      else cm) []

/-- Events yielded by the message-kind branch: one citation map when
any citation entity was found, then the text as final content when the
stream-type tag is `final` or absent, then a comma-joined suggestion
when suggested actions are present and non-empty. -/
def messageOutputs (a : Activity) : List OutputEvent :=
  let citationMap := buildCitationMap a.entities
  let citPart := if citationMap ≠ [] then [OutputEvent.citations citationMap] else []
  let contentPart :=
    if optTruthy a.text then
      let streamType := match a.channelData with
        | some cd => cd.streamType
        | none => none
      if streamType = some "final" ∨ streamType = none then
        [OutputEvent.finalContent (a.text.getD "")]
      else []
    else []
  let sugPart :=
    match a.suggestedActions with
    | some actions =>
      if actions ≠ [] then [OutputEvent.suggestion (String.intercalate ", " actions)] else []
    | none => []
  citPart ++ contentPart ++ sugPart

/-- The events one non-terminal loop iteration of `send_message` yields
for a reply: the event-kind block (a plain `if`), then the
typing/message chain. -/
def replyOutputs (a : Activity) : List OutputEvent :=
  (if a.type = ActivityType.event then eventOutputs a else [])
    ++ (match a.type with
        | ActivityType.typing => typingOutputs a
        | ActivityType.message => messageOutputs a
        | _ => [])

/-- The mutable state of `CopilotStudioClient` that the embedded
methods read or write: `_conversation_id` (the connection settings and
transport handle are opaque collaborators). -/
structure ClientState where
  conversationId : Option String
deriving DecidableEq, Repr

/-- The `async for` loop of `send_message`: yields each reply's events;
an end-of-conversation reply yields `('status', "Conversation ended.")`
and `break`s, ignoring the rest of the stream. -/
def sendLoop : List Activity → List OutputEvent
  | [] => []
  | a :: rest =>
    if a.type = ActivityType.endOfConversation then
      replyOutputs a ++ [OutputEvent.status "Conversation ended."]
    else replyOutputs a ++ sendLoop rest

set_option linter.unusedVariables false in
/-- `send_message` from `copilot_client.py`, as a function of the client
state and the reply stream the transport produces for the sent message.
The loop body never assigns to `self._conversation_id`, so the client
state is threaded through unchanged.  A falsy conversation id yields a
single error content event. -/
def send_message (c : ClientState) (message : String) (replies : List Activity) :
    List OutputEvent × ClientState :=
  if optTruthy c.conversationId then (sendLoop replies, c)
  else ([OutputEvent.content "Error: No active conversation."], c)

/-! ## `start_conversation` -/

/-- One activity of the start-conversation stream: optional text and an
optional conversation reference carrying its id. -/
structure StartActivity where
  text : Option String
  conversation : Option String
deriving DecidableEq, Repr

/-- The whitespace characters `str.strip()` removes (ASCII set). -/
def isPySpace (c : Char) : Bool :=
  c = ' ' || c = '\t' || c = '\n' || c = '\r' || c = Char.ofNat 0x0B || c = Char.ofNat 0x0C

/-- Python `s.strip()`. -/
def pyStrip (s : String) : String :=
  String.mk ((s.data.dropWhile isPySpace).reverse.dropWhile isPySpace).reverse

/-- One iteration of the `start_conversation` loop: append
`text + "\n"` when the text is truthy; record the conversation id when
a conversation reference is present. -/
def startStep (acc : String × ClientState) (a : StartActivity) : String × ClientState :=
  (if optTruthy a.text then acc.1 ++ a.text.getD "" ++ "\n" else acc.1,
   match a.conversation with
   | some cid => ⟨some cid⟩
   | none => acc.2)

/-- `start_conversation` from `copilot_client.py`: folds the stream,
then returns `welcome_text.strip()` when the accumulated text is
truthy, else `None`, together with the final client state. -/
def start_conversation (c : ClientState) (acts : List StartActivity) :
    Option String × ClientState :=
  let fin := acts.foldl startStep ("", c)
  (if fin.1 ≠ "" then some (pyStrip fin.1) else none, fin.2)

/-- The first-seen conversation identifier of the stream (the claim's
reading for C5). -/
def specFirstConvId (acts : List StartActivity) : Option String :=
  (acts.filterMap (fun a => a.conversation)).head?

/-- The last-seen conversation identifier of the stream, keeping `c₀`
when no activity carries a conversation reference. -/
def specLastConvId (c₀ : Option String) : List StartActivity → Option String
  | [] => c₀
  | a :: acts =>
    match a.conversation with
    | some cid => specLastConvId (some cid) acts
    | none => specLastConvId c₀ acts

/-- The truthy texts of the stream, in order. -/
def truthyTexts (acts : List StartActivity) : List String :=
  acts.filterMap (fun a => if optTruthy a.text then some (a.text.getD "") else none)

lemma sendLoop_stop (a : Activity) (ha : a.type = ActivityType.endOfConversation) :
    ∀ (pre post : List Activity),
      sendLoop (pre ++ a :: post) = sendLoop (pre ++ [a]) := by
  intro pre
  induction pre with
  | nil =>
    intro post
    simp [sendLoop, ha]
  | cons b pre ih =>
    intro post
    by_cases hb : b.type = ActivityType.endOfConversation
    · simp [sendLoop, hb]
    · simp [sendLoop, hb, ih post]

lemma sendLoop_no_eoc :
    ∀ (pre : List Activity),
      (∀ b ∈ pre, b.type ≠ ActivityType.endOfConversation) →
      ∀ (a : Activity), a.type = ActivityType.endOfConversation → ∀ post,
        sendLoop (pre ++ a :: post)
          = (pre.map replyOutputs).flatten ++ replyOutputs a
              ++ [OutputEvent.status "Conversation ended."] := by
  intro pre
  induction pre with
  | nil =>
    intro _ a ha post
    simp [sendLoop, ha]
  | cons b pre ih =>
    intro hpre a ha post
    have hb : b.type ≠ ActivityType.endOfConversation := hpre b (List.mem_cons_self b pre)
    have hpre' : ∀ x ∈ pre, x.type ≠ ActivityType.endOfConversation :=
      fun x hx => hpre x (List.mem_cons_of_mem b hx)
    simp [sendLoop, hb, ih hpre' a ha post, List.append_assoc]

/-- Claim C4: when the conversation identifier is not set, `send_message`
yields exactly one event, a content event carrying an error string, and
terminates without raising; the state is unchanged. -/
theorem C4_missing_conversation_id (message : String) (replies : List Activity) :
    send_message ⟨none⟩ message replies
      = ([OutputEvent.content "Error: No active conversation."], ⟨none⟩) := rfl

/-- Claim C10: `send_message` never modifies the stored conversation
identifier: the client state after the yielded sequence equals the
state before the call. -/
theorem C10_send_message_frame (c : ClientState) (message : String)
    (replies : List Activity) :
    (send_message c message replies).2 = c := by
  unfold send_message
  split <;> rfl

/-- Claim C6: on an end-of-conversation activity, `send_message` emits
`Status("Conversation ended.")` and stops reading: the yielded sequence
does not depend on what follows in the stream, and (when no earlier
end-of-conversation occurred) it is exactly the events of the earlier
replies followed by the status event, which closes the sequence (the
spec's `EndOfTurn` marker is this termination). -/
theorem C6_end_of_conversation (c : ClientState) (message : String)
    (pre : List Activity) (a : Activity) (post : List Activity)
    (hconv : optTruthy c.conversationId = true)
    (ha : a.type = ActivityType.endOfConversation) :
    (send_message c message (pre ++ a :: post)).1
        = (send_message c message (pre ++ [a])).1
    ∧ ((∀ b ∈ pre, b.type ≠ ActivityType.endOfConversation) →
        (send_message c message (pre ++ a :: post)).1
          = (pre.map replyOutputs).flatten ++ replyOutputs a
              ++ [OutputEvent.status "Conversation ended."]) := by
  constructor
  · simp [send_message, hconv, sendLoop_stop a ha pre post]
  · intro hpre
    simp [send_message, hconv, sendLoop_no_eoc pre hpre a ha post]

/-- Witness for C6 with one trailing activity after the
end-of-conversation reply. -/
theorem C6_end_of_conversation_witness :
    ((send_message ⟨some "conv"⟩ "hi"
        ([] ++ Activity.mk ActivityType.endOfConversation none none none [] none
            :: [Activity.mk ActivityType.message (some "late") none none [] none])).1
        = (send_message ⟨some "conv"⟩ "hi"
            ([] ++ [Activity.mk ActivityType.endOfConversation none none none [] none])).1)
    ∧ ((∀ b ∈ ([] : List Activity), b.type ≠ ActivityType.endOfConversation) →
        (send_message ⟨some "conv"⟩ "hi"
            ([] ++ Activity.mk ActivityType.endOfConversation none none none [] none
              :: [Activity.mk ActivityType.message (some "late") none none [] none])).1
          = (([] : List Activity).map replyOutputs).flatten
              ++ replyOutputs (Activity.mk ActivityType.endOfConversation none none none [] none)
              ++ [OutputEvent.status "Conversation ended."]) :=
  C6_end_of_conversation ⟨some "conv"⟩ "hi" [] _ _ (by decide) (by decide)

lemma strJoin_newline_eq_empty (ts : List String) :
    strJoin (ts.map (fun t => t ++ "\n")) = "" ↔ ts = [] := by
  cases ts with
  | nil => simp [strJoin]
  | cons t rest =>
    simp only [List.map_cons, strJoin]
    constructor
    · intro h
      have hd := congrArg String.data h
      rw [String.data_append, String.data_append,
        show ("\n" : String).data = ['\n'] from rfl] at hd
      simp at hd
    · intro h
      cases h

lemma startFold_spec : ∀ (acts : List StartActivity) (w : String) (c : ClientState),
    acts.foldl startStep (w, c)
      = (w ++ strJoin ((truthyTexts acts).map (fun t => t ++ "\n")),
         ⟨specLastConvId c.conversationId acts⟩) := by
  intro acts
  induction acts with
  | nil =>
    intro w c
    simp [truthyTexts, strJoin, specLastConvId, String.append_empty]
  | cons a acts ih =>
    intro w c
    rw [List.foldl_cons]
    by_cases htext : optTruthy a.text = true
    · cases hconv : a.conversation with
      | some cid =>
        rw [show startStep (w, c) a = (w ++ a.text.getD "" ++ "\n", (⟨some cid⟩ : ClientState))
          from by simp [startStep, htext, hconv]]
        rw [ih]
        simp [truthyTexts, specLastConvId, hconv, htext, strJoin, String.append_assoc]
      | none =>
        rw [show startStep (w, c) a = (w ++ a.text.getD "" ++ "\n", c)
          from by simp [startStep, htext, hconv]]
        rw [ih]
        simp [truthyTexts, specLastConvId, hconv, htext, strJoin, String.append_assoc]
    · cases hconv : a.conversation with
      | some cid =>
        rw [show startStep (w, c) a = (w, (⟨some cid⟩ : ClientState))
          from by simp [startStep, htext, hconv]]
        rw [ih]
        simp [truthyTexts, specLastConvId, hconv, htext]
      | none =>
        rw [show startStep (w, c) a = (w, c) from by simp [startStep, htext, hconv]]
        rw [ih]
        simp [truthyTexts, specLastConvId, hconv, htext]

/-- Counterexample to claim C5 as stated: with two activities carrying
conversation identifiers `a` then `b`, the recorded identifier is the
last-seen `b`, not the first-seen `a`. -/
theorem C5_first_seen_counterexample :
    (start_conversation ⟨none⟩
        [StartActivity.mk none (some "a"), StartActivity.mk none (some "b")]).2.conversationId
      = some "b"
    ∧ specFirstConvId [StartActivity.mk none (some "a"), StartActivity.mk none (some "b")]
      = some "a"
    ∧ (some "b" : Option String) ≠ some "a" :=
  ⟨rfl, rfl, by decide⟩

/-- Claim C5, amended: the recorded conversation identifier is the
last-seen one (unchanged when no activity carries one), and the
operation returns `None` exactly when no event carried a truthy text,
otherwise the whitespace-stripped concatenation of the truthy texts,
each followed by a newline. -/
theorem C5_start_conversation_amended (c : ClientState) (acts : List StartActivity) :
    (start_conversation c acts).2.conversationId = specLastConvId c.conversationId acts
    ∧ (start_conversation c acts).1
        = (if truthyTexts acts = [] then none
           else some (pyStrip (strJoin ((truthyTexts acts).map (fun t => t ++ "\n"))))) := by
  have h := startFold_spec acts "" c
  simp only [start_conversation, h, String.empty_append]
  constructor
  · trivial
  · by_cases hts : truthyTexts acts = []
    · rw [if_pos hts, (strJoin_newline_eq_empty (truthyTexts acts)).mpr hts]
      simp
    · rw [if_neg hts]
      have hne : strJoin ((truthyTexts acts).map (fun t => t ++ "\n")) ≠ "" :=
        fun h0 => hts ((strJoin_newline_eq_empty (truthyTexts acts)).mp h0)
      rw [if_pos hne]

/-! ## The consumer fold (`process_response` in `app.py`)

`process_response` folds the yielded event sequence into per-turn
state: accumulated content parts, the streaming flag, the merged
citation-metadata table, the collected search results and thoughts, and
the last suggestion.  The display calls (placeholders, intermediate
`clean_citations` previews) do not touch this state. -/

/-- `re.search(r'search(\d+)$', cite_id)` from `process_response`,
returning `int(match.group(1))` on a match.  `$` also matches just
before one trailing newline, which is therefore ignored.  A match
exists exactly when the (truncated) string ends in `search` followed by
a non-empty digit run, and the captured group is the maximal trailing
digit run — the literal `search` contains no digit, so the
decomposition is unique.  `\d` is modelled as ASCII digits. -/
def matchSearchIdx (s : String) : Option Nat :=
  let cs := s.data
  let core := if cs.getLast? = some '\n' then cs.dropLast else cs
  let ds := (core.reverse.takeWhile (fun c => c.isDigit)).reverse
  if ds.isEmpty then none
  else if startsWithPat "search".data.reverse (core.reverse.drop ds.length) then
    some (ds.foldl (fun n c => n * 10 + (c.toNat - 48)) 0)
  else none

/-- `for sr in search_results: if sr.get('index') == idx: ...; break` —
the first collected search result with the given index. -/
def findFirstSR (srs : List SearchEv) (idx : Nat) : Option SearchEv :=
  srs.find? (fun sr => sr.index == idx)

/-- The in-place enrichment applied to one incoming citation record:
when the id matches `search(\d+)$` and the record's url is empty, copy
the url of the first collected search result with that index, and its
title too when the record's title is empty. -/
def enrichEntry (srs : List SearchEv) (citeId : String) (info : CiteInfo) : CiteInfo :=
  match matchSearchIdx citeId with
  | some idx =>
    if info.url = "" then
      match findFirstSR srs idx with
      | some sr => ⟨sr.url, if info.title = "" then sr.title else info.title⟩
      | none => info
    else info
  | none => info

/-- The per-turn accumulation state of `process_response`. -/
structure TurnState where
  contentParts : List String
  suggestions : Option String
  citationMetadata : List (String × CiteInfo)
  searchResults : List SearchEv
  thoughts : List ThoughtEv
  gotStreaming : Bool
deriving DecidableEq, Repr

/-- The state at the start of a turn. -/
def initTurnState : TurnState := ⟨[], none, [], [], [], false⟩

/-- One iteration of the consumer fold: thoughts and search results are
appended; a content delta sets the streaming flag and appends; final
content replaces the parts wholesale only when no delta was received; a
citation map is enriched from the collected search results and merged
with `dict.update`; the last suggestion wins; status events leave the
state unchanged. -/
def stepEvent (st : TurnState) (ev : OutputEvent) : TurnState :=
  match ev with
  | .status _ => st
  | .thought t => { st with thoughts := st.thoughts ++ [t] }
  | .searchResult sr => { st with searchResults := st.searchResults ++ [sr] }
  | .content text =>
    { st with gotStreaming := true, contentParts := st.contentParts ++ [text] }
  | .finalContent text => if st.gotStreaming then st else { st with contentParts := [text] }
  | .citations m =>
    { st with citationMetadata := dictUpdate st.citationMetadata (m.map (fun p => (p.1, enrichEntry st.searchResults p.1 p.2))) }
  | .suggestion s => { st with suggestions := some s }

/-- The consumer fold over one turn's yielded events. -/
def processEvents (evs : List OutputEvent) : TurnState :=
  evs.foldl stepEvent initTurnState

/-- The search-result payloads of an event list, in order. -/
def collectSRs (evs : List OutputEvent) : List SearchEv :=
  evs.filterMap (fun e => match e with | .searchResult sr => some sr | _ => none)

lemma stepEvent_searchResults (st : TurnState) (ev : OutputEvent) :
    (stepEvent st ev).searchResults
      = st.searchResults ++ (match ev with
          | OutputEvent.searchResult sr => [sr]
          | _ => []) := by
  cases ev with
  | status t => simp [stepEvent]
  | thought t => simp [stepEvent]
  | searchResult sr => simp [stepEvent]
  | content t => simp [stepEvent]
  | finalContent t =>
    simp only [stepEvent, List.append_nil]
    split <;> rfl
  | citations m => simp [stepEvent]
  | suggestion s => simp [stepEvent]

lemma foldl_searchResults : ∀ (evs : List OutputEvent) (st : TurnState),
    (evs.foldl stepEvent st).searchResults = st.searchResults ++ collectSRs evs := by
  intro evs
  induction evs with
  | nil => intro st; simp [collectSRs]
  | cons e evs ih =>
    intro st
    rw [List.foldl_cons, ih, stepEvent_searchResults]
    cases e <;> simp [collectSRs, List.append_assoc]

lemma gotStreaming_mono : ∀ (evs : List OutputEvent) (st : TurnState),
    st.gotStreaming = true → (evs.foldl stepEvent st).gotStreaming = true := by
  intro evs
  induction evs with
  | nil => intro st h; exact h
  | cons e evs ih =>
    intro st h
    rw [List.foldl_cons]
    apply ih
    cases e <;> simp [stepEvent, h]

lemma gotStreaming_of_content : ∀ (evs : List OutputEvent) (st : TurnState) (ctext : String),
    OutputEvent.content ctext ∈ evs → (evs.foldl stepEvent st).gotStreaming = true := by
  intro evs
  induction evs with
  | nil => intro st ctext h; cases h
  | cons e evs ih =>
    intro st ctext h
    rw [List.foldl_cons]
    rcases List.mem_cons.mp h with h1 | h1
    · rw [← h1]
      exact gotStreaming_mono evs _ rfl
    · exact ih _ ctext h1

/-- Claim C3: once any content delta has been observed in a turn, a
later final-content event does not alter the accumulated text; and when
no delta was received, final content replaces the accumulated text
wholesale. -/
theorem C3_final_content_ignored (evs : List OutputEvent) (t : String) :
    ((∃ ctext, OutputEvent.content ctext ∈ evs) →
        (processEvents (evs ++ [OutputEvent.finalContent t])).contentParts
          = (processEvents evs).contentParts)
    ∧ ((processEvents evs).gotStreaming = false →
        (processEvents (evs ++ [OutputEvent.finalContent t])).contentParts = [t]) := by
  constructor
  · rintro ⟨ctext, hmem⟩
    have hgs : (List.foldl stepEvent initTurnState evs).gotStreaming = true :=
      gotStreaming_of_content evs initTurnState ctext hmem
    unfold processEvents
    rw [List.foldl_append]
    simp [stepEvent, hgs]
  · intro hgs
    unfold processEvents at hgs ⊢
    rw [List.foldl_append]
    simp [stepEvent, hgs]

/-- Witness for C3: a delta `hi`, then final content `bye`; the
accumulated text is unchanged. -/
theorem C3_final_content_ignored_witness :
    (processEvents ([OutputEvent.content "hi"] ++ [OutputEvent.finalContent "bye"])).contentParts
      = (processEvents [OutputEvent.content "hi"]).contentParts :=
  (C3_final_content_ignored [OutputEvent.content "hi"] "bye").1 ⟨"hi", by decide⟩

lemma lookupDict_setKey_self {α : Type} (d : List (String × α)) (k : String) (v : α) :
    lookupDict (setKey d k v) k = some v := by
  induction d with
  | nil => simp [setKey, lookupDict]
  | cons p rest ih =>
    rcases p with ⟨k₀, v₀⟩
    by_cases h : k₀ = k
    · simp [setKey, h, lookupDict]
    · simp [setKey, h, lookupDict, ih]

lemma lookupDict_setKey_other {α : Type} (d : List (String × α)) (k k₁ : String) (v : α)
    (hne : k₁ ≠ k) : lookupDict (setKey d k₁ v) k = lookupDict d k := by
  induction d with
  | nil => simp [setKey, lookupDict, hne]
  | cons p rest ih =>
    rcases p with ⟨k₀, v₀⟩
    by_cases h : k₀ = k₁
    · subst h
      simp [setKey, lookupDict, hne]
    · simp [setKey, h, lookupDict, ih]

lemma lookupDict_dictUpdate_not_mem {α : Type} :
    ∀ (m d : List (String × α)) (k : String), k ∉ m.map Prod.fst →
      lookupDict (dictUpdate d m) k = lookupDict d k := by
  intro m
  induction m with
  | nil => intro d k _; rfl
  | cons p m ih =>
    intro d k hk
    rcases p with ⟨k₁, v₁⟩
    have hne : k₁ ≠ k := by
      intro he
      exact hk (by rw [← he]; exact List.mem_cons_self k₁ (m.map Prod.fst))
    have hk' : k ∉ m.map Prod.fst := fun h => hk (List.mem_cons_of_mem k₁ h)
    rw [show dictUpdate d ((k₁, v₁) :: m) = dictUpdate (setKey d k₁ v₁) m from rfl,
      ih (setKey d k₁ v₁) k hk', lookupDict_setKey_other d k k₁ v₁ hne]

lemma lookupDict_dictUpdate_mem {α : Type} :
    ∀ (m d : List (String × α)) (k : String) (v : α),
      (k, v) ∈ m → (m.map Prod.fst).Nodup →
      lookupDict (dictUpdate d m) k = some v := by
  intro m
  induction m with
  | nil => intro d k v h _; cases h
  | cons p m ih =>
    intro d k v hmem hnd
    rcases p with ⟨k₁, v₁⟩
    rw [show dictUpdate d ((k₁, v₁) :: m) = dictUpdate (setKey d k₁ v₁) m from rfl]
    have hnd' : (k₁ :: m.map Prod.fst).Nodup := hnd
    have hnd₁ : k₁ ∉ m.map Prod.fst := (List.nodup_cons.mp hnd').1
    have hnd₂ : (m.map Prod.fst).Nodup := (List.nodup_cons.mp hnd').2
    rcases List.mem_cons.mp hmem with h1 | h1
    · injection h1 with hk hv
      subst hk
      subst hv
      rw [lookupDict_dictUpdate_not_mem m (setKey d k v) k hnd₁,
        lookupDict_setKey_self d k v]
    · exact ih (setKey d k₁ v₁) k v h1 hnd₂

/-- Shared merge fact: after a citations event, the stored record for
any identifier of the incoming map (with duplicate-free keys, as a
Python dict has) is the enriched incoming record, whatever was stored
before. -/
lemma stepEvent_citations_lookup (st : TurnState) (m : List (String × CiteInfo))
    (citeId : String) (v : CiteInfo)
    (hmem : (citeId, v) ∈ m) (hnd : (m.map Prod.fst).Nodup) :
    lookupDict ((stepEvent st (OutputEvent.citations m)).citationMetadata) citeId
      = some (enrichEntry st.searchResults citeId v) := by
  show lookupDict (dictUpdate st.citationMetadata
      (m.map (fun p => (p.1, enrichEntry st.searchResults p.1 p.2)))) citeId = _
  apply lookupDict_dictUpdate_mem
  · exact List.mem_map_of_mem (fun p => (p.1, enrichEntry st.searchResults p.1 p.2)) hmem
  · rw [List.map_map]
    show (m.map Prod.fst).Nodup
    exact hnd

/-- Counterexample to claim C1 as stated: a first citation map stores a
non-empty url for `id1`; a later map for the same identifier with an
empty url and title replaces it wholesale, so the non-empty url IS
overwritten. -/
theorem C1_merge_overwrites_counterexample :
    lookupDict (processEvents
        [OutputEvent.citations [("id1", CiteInfo.mk "https://x" "X")],
         OutputEvent.citations [("id1", CiteInfo.mk "" "")]]).citationMetadata "id1"
      = some (CiteInfo.mk "" "")
    ∧ CiteInfo.mk "" "" ≠ CiteInfo.mk "https://x" "X" :=
  ⟨rfl, by decide⟩

/-- Claim C1, amended: merging a later `CitationMap` entry for an
identifier replaces the stored record wholesale (`dict.update`, last
wins), after first enriching the incoming record's empty url/title from
the collected search results; a non-empty stored url or title is not
protected. -/
theorem C1_citation_merge_amended (st : TurnState) (m : List (String × CiteInfo))
    (citeId : String) (v : CiteInfo)
    (hmem : (citeId, v) ∈ m) (hnd : (m.map Prod.fst).Nodup) :
    lookupDict ((stepEvent st (OutputEvent.citations m)).citationMetadata) citeId
      = some (enrichEntry st.searchResults citeId v) :=
  stepEvent_citations_lookup st m citeId v hmem hnd

/-- Witness for C1 (amended): the stored non-empty url for `id1` is
replaced by the incoming empty record. -/
theorem C1_citation_merge_amended_witness :
    lookupDict ((stepEvent (TurnState.mk [] none [("id1", CiteInfo.mk "https://x" "X")] [] [] false)
        (OutputEvent.citations [("id1", CiteInfo.mk "" "")])).citationMetadata) "id1"
      = some (enrichEntry [] "id1" (CiteInfo.mk "" "")) :=
  C1_citation_merge_amended (TurnState.mk [] none [("id1", CiteInfo.mk "https://x" "X")] [] [] false)
    [("id1", CiteInfo.mk "" "")] "id1" (CiteInfo.mk "" "") (by decide) (by decide)

/-- Counterexample to claim C7 as stated: the cross-linking copies the
url of the matching search result but NOT its title when the citation
record already carries a non-empty title (`Keep` stays, `S` is not
copied). -/
theorem C7_title_not_copied_counterexample :
    lookupDict (processEvents
        [OutputEvent.searchResult (SearchEv.mk 0 "U" "S" ""),
         OutputEvent.citations [("turn1search0", CiteInfo.mk "" "Keep")]]).citationMetadata
        "turn1search0"
      = some (CiteInfo.mk "U" "Keep")
    ∧ CiteInfo.mk "U" "Keep" ≠ CiteInfo.mk "U" "S" :=
  ⟨rfl, by decide⟩

/-- Claim C7, amended: for a citation identifier matching
`search(\d+)$` with empty url, the merge adopts the url of the first
previously observed search result with that index, and its title only
when the citation's title is empty; when no search result with that
index was observed, the record (and in particular its empty url) is
stored unchanged. -/
theorem C7_cross_link_amended (evs : List OutputEvent) (citeId : String) (v : CiteInfo)
    (n : Nat) (h1 : matchSearchIdx citeId = some n) (h2 : v.url = "") :
    (∀ sr, findFirstSR (collectSRs evs) n = some sr →
        lookupDict ((processEvents
            (evs ++ [OutputEvent.citations [(citeId, v)]])).citationMetadata) citeId
          = some (CiteInfo.mk sr.url (if v.title = "" then sr.title else v.title)))
    ∧ ((∀ sr ∈ collectSRs evs, sr.index ≠ n) →
        lookupDict ((processEvents
            (evs ++ [OutputEvent.citations [(citeId, v)]])).citationMetadata) citeId
          = some v) := by
  have hsr : (processEvents evs).searchResults = collectSRs evs := by
    unfold processEvents
    rw [foldl_searchResults evs initTurnState]
    rfl
  have hstep : processEvents (evs ++ [OutputEvent.citations [(citeId, v)]])
      = stepEvent (processEvents evs) (OutputEvent.citations [(citeId, v)]) := by
    unfold processEvents
    rw [List.foldl_append]
    rfl
  have hlk := stepEvent_citations_lookup (processEvents evs) [(citeId, v)] citeId v
    (by simp) (by simp)
  rw [hsr] at hlk
  constructor
  · intro sr hfind
    rw [hstep, hlk]
    simp [enrichEntry, h1, h2, hfind]
  · intro hnone
    have hfind : findFirstSR (collectSRs evs) n = none := by
      apply List.find?_eq_none.mpr
      intro sr hx
      simpa using hnone sr hx
    rw [hstep, hlk]
    simp [enrichEntry, h1, h2, hfind]

/-- Witness for C7 (amended): one search result with index 0, then a
citation `turn1search0` with empty url and title; the merged record
adopts url `U` and title `S`. -/
theorem C7_cross_link_amended_witness :
    lookupDict ((processEvents ([OutputEvent.searchResult (SearchEv.mk 0 "U" "S" "sid")]
        ++ [OutputEvent.citations [("turn1search0", CiteInfo.mk "" "")]])).citationMetadata)
        "turn1search0"
      = some (CiteInfo.mk "U" "S") :=
  (C7_cross_link_amended [OutputEvent.searchResult (SearchEv.mk 0 "U" "S" "sid")]
      "turn1search0" (CiteInfo.mk "" "") 0 (by decide) rfl).1
    (SearchEv.mk 0 "U" "S" "sid") (by decide)

/-- Witness for C8 (amended) at the identifier from the source comment. -/
theorem C8_task_label_amended_witness :
    extractTaskName "P:UniversalSearchTool"
      = String.mk (pyRemoveAll "-InvokeServer".data (specTaskBase "P:UniversalSearchTool".data)) :=
  (C8_task_label_amended "P:UniversalSearchTool").1
